import Mathlib

/-!
Verification of `lua/types.h` (the yue Lua type-marshalling layer).

The file shallowly embeds the conversion traits of `src/lua/types.h`:
the Lua stack is a `List LuaValue` with its head at the top, Lua table
values carry an explicit entry list (iteration order of `lua_next` is the
list order), and each `Type<T>::Push` / `Type<T>::To` specialization
becomes an executable Lean function.  Machine-integer narrowing that the
C++ code performs (`lua_Integer` results stored through `int`, `int`
stored through `uint32_t*`) is made explicit with `% 2 ^ 32` arithmetic.
The Lua runtime itself and the repository helpers `StackAutoReset`,
`NewTable` and `RawSet` are not part of `src/`; they are modelled from the
spec where noted.
-/

namespace LuaTypes

/-- A Lua number is either an integer (`lua_Integer`, pushed by
`lua_pushinteger`) or a float (`lua_Number`, pushed by `lua_pushnumber`).
Floats are modelled as rationals: every claim in scope only exercises
values the double format represents exactly, on which the C conversions
through `double` are exact. -/
inductive LuaNumber where
  | int : Int → LuaNumber
  | flt : ℚ → LuaNumber
deriving DecidableEq

/-- A dynamically-typed Lua value.  Tables carry their entry list; the
order of the list is the order `lua_next` enumerates the entries. -/
inductive LuaValue where
  | nil
  | num (n : LuaNumber)
  | boolean (b : Bool)
  | str (s : String)
  | table (entries : List (LuaValue × LuaValue))
  | lightuserdata (p : Nat)

/-- The `LuaType` enum of `lua/types.h` (wrapping the `LUA_T*` tags). -/
inductive LuaType where
  | None
  | Nil
  | Number
  | Boolean
  | String
  | Table
  | Function
  | UserData
  | Thread
  | LightUserData
deriving DecidableEq

/-- Type tag of a stack read; an invalid index yields `LuaType.None`,
matching `lua_type` on a non-acceptable index. -/
def luaTypeOf : Option LuaValue → LuaType
  | some .nil => .Nil
  | some (.num _) => .Number
  | some (.boolean _) => .Boolean
  | some (.str _) => .String
  | some (.table _) => .Table
  | some (.lightuserdata _) => .LightUserData
  | none => .None

/-- The Lua stack, head = top. -/
abbrev LuaStack := List LuaValue

/-- Resolve a Lua stack index (1-based positive from the bottom, negative
from the top, top = -1) to a position from the head of the list. -/
def resolvePos (s : LuaStack) (i : Int) : Option Nat :=
  if 0 < i then
    if i.toNat ≤ s.length then some (s.length - i.toNat) else none
  else if i < 0 then
    if (-i).toNat ≤ s.length then some ((-i).toNat - 1) else none
  else none

/-- The value at a stack index, `none` when the index is not acceptable. -/
def stackIndex (s : LuaStack) (i : Int) : Option LuaValue :=
  (resolvePos s i).bind fun p => s[p]?

/-- `GetType` of `lua/types.h`: thin wrapper of `lua_type`. -/
def GetType (s : LuaStack) (i : Int) : LuaType :=
  luaTypeOf (stackIndex s i)

/-- Numeric value of a Lua number (integers and floats compare and coerce
by value). -/
def numToRat : LuaNumber → ℚ
  | .int n => (n : ℚ)
  | .flt q => q

/-- Modelled from the spec: the runtime's string-to-integer coercion used
by `lua_tointegerx` on string arguments (Lua converts numeric strings).
Only plain decimal integer strings are modelled; no claim in scope
depends on the further corners of the runtime's parser. -/
def luaStrToInt (s : String) : Option Int :=
  s.toInt?

/-- Integer coercion of one Lua value: exact on integers, on floats with
an exact integer value, and on integer-coercible strings. -/
def intOfValue : LuaValue → Option Int
  | .num (.int n) => some n
  | .num (.flt q) => if q.den = 1 then some q.num else none
  | .str t => luaStrToInt t
  | _ => none

/-- `lua_tointegerx`: succeeds on an integer, on a float with an exact
integer value, and on a string the runtime coerces to an integer. -/
def luaToIntegerx (s : LuaStack) (i : Int) : Option Int :=
  (stackIndex s i).bind intOfValue

/-- Number coercion of one Lua value. -/
def numOfValue : LuaValue → Option ℚ
  | .num n => some (numToRat n)
  | .str t => (luaStrToInt t).map fun n => (n : ℚ)
  | _ => none

/-- `lua_tonumberx`: succeeds on any number and on numeric strings. -/
def luaToNumberx (s : LuaStack) (i : Int) : Option ℚ :=
  (stackIndex s i).bind numOfValue

/-- `lua_tointeger` (the no-flag macro): 0 on conversion failure. -/
def luaToIntegerD (s : LuaStack) (i : Int) : Int :=
  (luaToIntegerx s i).getD 0

/-- Modelled from the spec: the runtime's number-to-string coercion used
by `lua_tostring` ("the runtime may coerce numbers to strings").  The
exact text format is the runtime's own; a deterministic rendering is
enough for every claim in scope. -/
def luaNumToString : LuaNumber → String
  | .int n => toString n
  | .flt q =>
    if q.den = 1 then toString q.num ++ ".0"
    else toString q.num ++ "/" ++ toString q.den

/-- String coercion of one Lua value: strings themselves and the coerced
text of numbers. -/
def strOfValue : LuaValue → Option String
  | .str t => some t
  | .num n => some (luaNumToString n)
  | _ => none

/-- `lua_tostring`: yields the string for string slots, the coerced text
for number slots, and fails otherwise.  (The in-place replacement of the
number slot by its text does not change the stack height and no claim in
scope observes the slot afterwards, so the read is modelled pure.) -/
def luaToStr (s : LuaStack) (i : Int) : Option String :=
  (stackIndex s i).bind strOfValue

/-- Wrap of a 64-bit value into the C `int` range, modelling the
narrowing `int ret = lua_tointegerx(...)` the code performs. -/
def toInt32 (n : Int) : Int :=
  (n + 2 ^ 31) % 2 ^ 32 - 2 ^ 31

/-- Conversion of a C `int` value into `uint32_t`, i.e. reduction
modulo `2^32`. -/
def toUInt32 (n : Int) : Int :=
  n % 2 ^ 32

/-- C truncation of a floating value toward zero when stored into an
`int`, modelling `int ret = lua_tonumberx(...)`. -/
def cTruncToInt (q : ℚ) : Int :=
  Int.tdiv q.num (q.den : Int)

/-! ### Scalar specializations of `Type<T>` -/

/-- `Type<int>::Push`: `lua_pushinteger(state, number)`; the argument is
a C `int`, whose value the 64-bit `lua_Integer` holds exactly. -/
def intPush (s : LuaStack) (n : Int) : LuaStack :=
  .num (.int n) :: s

/-- `Type<int>::To`: `int ret = lua_tointegerx(...); if (success) *out = ret`.
Returns the success flag and the (possibly updated) out-value. -/
def intTo (s : LuaStack) (i : Int) (out : Int) : Bool × Int :=
  match luaToIntegerx s i with
  | some v => (true, toInt32 v)
  | none => (false, out)

/-- `Type<uint32_t>::Push`: `lua_pushinteger(state, number)`; a
`uint32_t` value converts to `lua_Integer` without loss. -/
def uint32Push (s : LuaStack) (n : Int) : LuaStack :=
  .num (.int n) :: s

/-- `Type<uint32_t>::To`: the runtime's integer result is stored through
`int ret` (wrap into the signed 32-bit range) and then assigned to a
`uint32_t*` (reduction modulo `2^32`). -/
def uint32To (s : LuaStack) (i : Int) (out : Int) : Bool × Int :=
  match luaToIntegerx s i with
  | some v => (true, toUInt32 (toInt32 v))
  | none => (false, out)

/-- `Type<float>::Push`: `lua_pushnumber(state, number)` after the exact
`float` → `double` conversion. -/
def floatPush (s : LuaStack) (q : ℚ) : LuaStack :=
  .num (.flt q) :: s

/-- `Type<float>::To`: `float ret = lua_tonumberx(...)`.  The `double` →
`float` conversion is exact on every float-representable value, the only
values the claims quantify over, so it is modelled as the identity. -/
def floatTo (s : LuaStack) (i : Int) (out : ℚ) : Bool × ℚ :=
  match luaToNumberx s i with
  | some q => (true, q)
  | none => (false, out)

/-- `Type<double>::Push`: `lua_pushnumber(state, number)`. -/
def doublePush (s : LuaStack) (q : ℚ) : LuaStack :=
  .num (.flt q) :: s

/-- `Type<double>::To` as written in the source: the result of
`lua_tonumberx` is stored through `int ret` (truncation toward zero)
before being assigned to the `double*` out-parameter. -/
def doubleTo (s : LuaStack) (i : Int) (out : ℚ) : Bool × ℚ :=
  match luaToNumberx s i with
  | some q => (true, ((cTruncToInt q : Int) : ℚ))
  | none => (false, out)

/-- `Type<bool>::Push`: `lua_pushboolean`. -/
def boolPush (s : LuaStack) (b : Bool) : LuaStack :=
  .boolean b :: s

/-- `Type<bool>::To`: fails unless `lua_isboolean` holds (no truthy/falsy
coercion), else reads `lua_toboolean`. -/
def boolTo (s : LuaStack) (i : Int) (out : Bool) : Bool × Bool :=
  match stackIndex s i with
  | some (.boolean b) => (true, b)
  | _ => (false, out)

/-- `Type<std::string>::Push` (also `Type<base::StringPiece>::Push` and
the literal forms): `lua_pushlstring` of the bytes. -/
def stringPush (s : LuaStack) (t : String) : LuaStack :=
  .str t :: s

/-- `Type<std::string>::To`: `lua_tostring`, failing only when the slot
is not string-coercible. -/
def stringTo (s : LuaStack) (i : Int) (out : String) : Bool × String :=
  match luaToStr s i with
  | some t => (true, t)
  | none => (false, out)

/-- `Type<base::StringPiece>::To`: same body as the `std::string`
specialization (the out-parameter views the runtime-owned bytes). -/
def stringPieceTo (s : LuaStack) (i : Int) (out : String) : Bool × String :=
  match luaToStr s i with
  | some t => (true, t)
  | none => (false, out)

/-- `Type<const char*>::To`: same body as the `std::string`
specialization. -/
def charPtrTo (s : LuaStack) (i : Int) (out : String) : Bool × String :=
  match luaToStr s i with
  | some t => (true, t)
  | none => (false, out)

/-- True on the slots `lua_tostring` coerces: strings and numbers. -/
def stringCoercible : LuaValue → Bool
  | .str _ => true
  | .num _ => true
  | _ => false

/-! ### Table primitives (modelled from the spec where the helper lives
outside `src/`) -/

/-- Lua table-key normalization: a float key with an exact integer value
is stored under the integer key (Lua 5.3 key normalization). -/
def keyNorm : LuaValue → LuaValue
  | .num (.flt q) => if q.den = 1 then .num (.int q.num) else .num (.flt q)
  | v => v

/-- Raw key equality of the runtime: numbers compare by numeric value,
primitive values structurally; distinct table values are distinct keys
(reference equality, and the model has no aliasing). -/
def luaKeyEq : LuaValue → LuaValue → Bool
  | .nil, .nil => true
  | .num a, .num b => decide (numToRat a = numToRat b)
  | .boolean a, .boolean b => a == b
  | .str a, .str b => a == b
  | .lightuserdata a, .lightuserdata b => a == b
  | _, _ => false

/-- Store `k ↦ v` into an entry list: replace in place when the
(normalized) key is present, append otherwise. -/
def tableSetGo (k v : LuaValue) :
    List (LuaValue × LuaValue) → List (LuaValue × LuaValue)
  | [] => [(k, v)]
  | (k', v') :: rest =>
    if luaKeyEq k k' then (k, v) :: rest else (k', v') :: tableSetGo k v rest

/-- Raw table store with key normalization. -/
def tableSet (entries : List (LuaValue × LuaValue)) (k v : LuaValue) :
    List (LuaValue × LuaValue) :=
  tableSetGo (keyNorm k) v entries

/-- Modelled from the spec: `NewTable` (repository helper outside `src/`)
creates a fresh empty table on the top of the stack; the array/hash size
arguments are capacity hints without semantic effect. -/
def newTable (s : LuaStack) : LuaStack :=
  .table [] :: s

/-- Modelled from the spec: `RawSet(state, index, key, value)`
(repository helper outside `src/`) pushes the key and the value and
raw-sets them into the table at `index`, leaving the net stack unchanged:
the table at `index` gains the entry. -/
def rawSet (s : LuaStack) (i : Int) (k v : LuaValue) : LuaStack :=
  match resolvePos s i with
  | some p =>
    match s[p]? with
    | some (.table entries) => s.set p (.table (tableSet entries k v))
    | _ => s
  | none => s

/-- `StackAutoReset` restoration, modelled from the spec: on scope exit
the stack is popped back to the recorded height `h`. -/
def stackSetTop (h : Nat) (s : LuaStack) : LuaStack :=
  s.drop (s.length - h)

/-! ### Container specializations of `Type<T>`

The element conversions are passed as functions, mirroring the template
parameters.  An element's `Type<T>::To` at a fixed index reads only that
slot and writes its fresh out-variable only on success, so it is passed
as a stack-reader returning `Option`. -/

/-- `Type<std::vector<T>>::Push`: `NewTable(state, vec.size())`, then
`RawSet(state, -1, i + 1, vec[i])` for each 0-based `i`.  `elemVal`
is the single Lua value `Type<T>::Push` produces for an element. -/
def vectorPushAux (elemVal : α → LuaValue) (s : LuaStack) :
    List α → Nat → LuaStack
  | [], _ => s
  | x :: rest, i =>
    vectorPushAux elemVal (rawSet s (-1) (.num (.int (i + 1))) (elemVal x))
      rest (i + 1)

/-- `Type<std::vector<T>>::Push` (wrapper). -/
def vectorPush (elemVal : α → LuaValue) (s : LuaStack) (vec : List α) :
    LuaStack :=
  vectorPushAux elemVal (newTable s) vec 0

/-- Loop body of `Type<std::vector<T>>::To`: `lua_next` iteration.  At
each step the key and value are the two scratch slots on top; the key
must have a number tag and `lua_tointeger` of it must equal
`static_cast<int>(out->size() - 1)` (as written in the source: the
`size_t` subtraction wraps, so an empty accumulator demands key `-1`);
then the element conversion runs at `-1`, the value slot is popped, and
the element is appended.  Returns (success, accumulator, stack at the
exit point, before the `StackAutoReset` destructor runs). -/
def vectorToLoop (elemTo : LuaStack → Int → Option α) :
    List (LuaValue × LuaValue) → LuaStack → List α →
      Bool × List α × LuaStack
  | [], sb, acc => (true, acc, sb)
  | (k, v) :: rest, sb, acc =>
    let s := v :: k :: sb
    if GetType s (-2) ≠ LuaType.Number then (false, acc, s)
    else if luaToIntegerD s (-2) ≠ (acc.length : Int) - 1 then (false, acc, s)
    else
      match elemTo s (-1) with
      | none => (false, acc, s)
      | some x => vectorToLoop elemTo rest sb (acc ++ [x])

/-- `Type<std::vector<T>>::To`: type check, `StackAutoReset`, `lua_pushnil`,
`lua_next` loop, restoration of the recorded height on every exit. -/
def vectorTo (elemTo : LuaStack → Int → Option α) (s : LuaStack) (i : Int)
    (out : List α) : Bool × List α × LuaStack :=
  match stackIndex s i with
  | some (.table entries) =>
    let r := vectorToLoop elemTo entries s out
    (r.1, r.2.1, stackSetTop s.length r.2.2)
  | _ => (false, out, s)

/-- `std::map` insertion (`(*out)[key] = value`): the map is the sorted
association list ordered by key; insert keeps the order, replacing an
existing binding. -/
def mapInsert [LinearOrder κ] : List (κ × α) → κ → α → List (κ × α)
  | [], k, v => [(k, v)]
  | (k', v') :: rest, k, v =>
    if k < k' then (k, v) :: (k', v') :: rest
    else if k = k' then (k, v) :: rest
    else (k', v') :: mapInsert rest k v

/-- `Type<std::map<K, V>>::Push`: `NewTable(state, 0, dict.size())`, then
`RawSet(state, -1, it.first, it.second)` for each entry in the map's
(key-sorted) iteration order. -/
def mapPush (keyVal : κ → LuaValue) (elemVal : α → LuaValue) (s : LuaStack)
    (dict : List (κ × α)) : LuaStack :=
  dict.foldl (fun st p => rawSet st (-1) (keyVal p.1) (elemVal p.2))
    (newTable s)

/-- Loop body of `Type<std::map<K, V>>::To`: converts the key slot at
`-2` and the value slot at `-1` into fresh locals; on both succeeding the
value slot is popped and `(*out)[key] = value` runs. -/
def mapToLoop [LinearOrder κ] (keyTo : LuaStack → Int → Option κ)
    (valTo : LuaStack → Int → Option α) :
    List (LuaValue × LuaValue) → LuaStack → List (κ × α) →
      Bool × List (κ × α) × LuaStack
  | [], sb, acc => (true, acc, sb)
  | (k, v) :: rest, sb, acc =>
    let s := v :: k :: sb
    match keyTo s (-2) with
    | none => (false, acc, s)
    | some key =>
      match valTo s (-1) with
      | none => (false, acc, s)
      | some value => mapToLoop keyTo valTo rest sb (mapInsert acc key value)

/-- `Type<std::map<K, V>>::To`: type check, `StackAutoReset`,
`lua_pushnil`, `lua_next` loop, restoration on every exit. -/
def mapTo [LinearOrder κ] (keyTo : LuaStack → Int → Option κ)
    (valTo : LuaStack → Int → Option α) (s : LuaStack) (i : Int)
    (out : List (κ × α)) : Bool × List (κ × α) × LuaStack :=
  match stackIndex s i with
  | some (.table entries) =>
    let r := mapToLoop keyTo valTo entries s out
    (r.1, r.2.1, stackSetTop s.length r.2.2)
  | _ => (false, out, s)

/-! ### Element-conversion instances used by the container claims -/

/-- `Type<int>::To` as an element reader: only the indexed slot matters
and the fresh local is written only on success. -/
def intToOpt (s : LuaStack) (i : Int) : Option Int :=
  (luaToIntegerx s i).map toInt32

/-- `Type<std::string>::To` as an element reader. -/
def strToOpt (s : LuaStack) (i : Int) : Option String :=
  luaToStr s i

/-- What `Type<int>::To` yields on a single value: the integer coercion
narrowed through the `int` intermediate. -/
def intReadValue (w : LuaValue) : Option Int :=
  (intOfValue w).map toInt32

/-- The single Lua value `Type<int>::Push` pushes. -/
def intVal (n : Int) : LuaValue :=
  .num (.int n)

/-- The single Lua value `Type<std::string>::Push` pushes. -/
def strVal (t : String) : LuaValue :=
  .str t

/-! ### The arity trait `Values<T>` -/

/-- Shape of a C++ type as far as `Values<T>` discriminates: the `void`
specialization, the `std::tuple<Args...>` specialization, and every other
type, here represented by the supported scalar/container names. -/
inductive CppType where
  | void
  | tuple (args : List CppType)
  | cint
  | cuint32
  | cfloat
  | cdouble
  | cbool
  | cstring
  | cvector (elem : CppType)
  | cmap (key elem : CppType)

/-- `Values<T>::count`: the primary template yields 1, the `void`
specialization 0, and the `std::tuple<Args...>` specialization
`sizeof...(Args)`. -/
def valuesCount : CppType → Nat
  | .void => 0
  | .tuple args => args.length
  | _ => 1

/-! ### Call sequences for the stack-neutrality claim -/

/-- One `Push` or `To` call of this layer, at concrete instantiations of
the templates; `To` constructors carry the index and the initial
out-value of the call. -/
inductive LuaOp where
  | pushInt (n : Int)
  | pushUInt32 (n : Int)
  | pushFloat (q : ℚ)
  | pushDouble (q : ℚ)
  | pushBool (b : Bool)
  | pushString (t : String)
  | pushVectorInt (v : List Int)
  | pushMapIntInt (d : List (Int × Int))
  | toInt (i : Int) (out : Int)
  | toUInt32 (i : Int) (out : Int)
  | toFloat (i : Int) (out : ℚ)
  | toDouble (i : Int) (out : ℚ)
  | toBool (i : Int) (out : Bool)
  | toStr (i : Int) (out : String)
  | toVectorInt (i : Int) (out : List Int)
  | toMapIntInt (i : Int) (out : List (Int × Int))

/-- Effect of one call on the stack (the scalar `To`s read without
touching the stack; the container `To`s run their iteration and the
`StackAutoReset` restoration). -/
def applyOp (s : LuaStack) : LuaOp → LuaStack
  | .pushInt n => intPush s n
  | .pushUInt32 n => uint32Push s n
  | .pushFloat q => floatPush s q
  | .pushDouble q => doublePush s q
  | .pushBool b => boolPush s b
  | .pushString t => stringPush s t
  | .pushVectorInt v => vectorPush intVal s v
  | .pushMapIntInt d => mapPush intVal intVal s d
  | .toInt _ _ => s
  | .toUInt32 _ _ => s
  | .toFloat _ _ => s
  | .toDouble _ _ => s
  | .toBool _ _ => s
  | .toStr _ _ => s
  | .toVectorInt i out => (vectorTo intToOpt s i out).2.2
  | .toMapIntInt i out => (mapTo intToOpt intToOpt s i out).2.2

/-- Documented net stack effect of one call: +1 per `Push`, 0 per `To`. -/
def opDelta : LuaOp → Nat
  | .pushInt _ => 1
  | .pushUInt32 _ => 1
  | .pushFloat _ => 1
  | .pushDouble _ => 1
  | .pushBool _ => 1
  | .pushString _ => 1
  | .pushVectorInt _ => 1
  | .pushMapIntInt _ => 1
  | _ => 0

/-- Run a sequence of calls. -/
def runOps (s : LuaStack) (ops : List LuaOp) : LuaStack :=
  ops.foldl applyOp s

/-- The non-integral double `1.5` of the round-trip claim, given as an
explicit reduced fraction. -/
def threeHalves : ℚ :=
  ⟨3, 2, by norm_num, by norm_num⟩

/-! ### Helper lemmas -/

theorem stackIndex_top (x : LuaValue) (s : LuaStack) :
    stackIndex (x :: s) (-1) = some x := by
  simp [stackIndex, resolvePos]

theorem stackIndex_under_top (a b : LuaValue) (s : LuaStack) :
    stackIndex (a :: b :: s) (-2) = some b := by
  simp [stackIndex, resolvePos]

theorem stackSetTop_self (s : LuaStack) : stackSetTop s.length s = s := by
  simp [stackSetTop]

theorem stackSetTop_two (a b : LuaValue) (s : LuaStack) :
    stackSetTop s.length (a :: b :: s) = s := by
  simp only [stackSetTop, List.length_cons]
  have h : s.length + 1 + 1 - s.length = 2 := by omega
  rw [h]
  rfl

theorem rawSet_length (s : LuaStack) (i : Int) (k v : LuaValue) :
    (rawSet s i k v).length = s.length := by
  unfold rawSet
  cases hp : resolvePos s i with
  | none => rfl
  | some p =>
    cases hv : s[p]? with
    | none => simp [hv]
    | some x => cases x <;> simp [hv]

theorem vectorPushAux_length (e : α → LuaValue) (vec : List α) :
    ∀ (s : LuaStack) (i : Nat), (vectorPushAux e s vec i).length = s.length := by
  induction vec with
  | nil => intro s i; rfl
  | cons x rest ih =>
    intro s i
    simp only [vectorPushAux]
    rw [ih, rawSet_length]

theorem vectorPush_length (e : α → LuaValue) (s : LuaStack) (vec : List α) :
    (vectorPush e s vec).length = s.length + 1 := by
  simp [vectorPush, vectorPushAux_length, newTable]

theorem mapPush_length (kv : κ → LuaValue) (ev : α → LuaValue) (s : LuaStack)
    (dict : List (κ × α)) : (mapPush kv ev s dict).length = s.length + 1 := by
  suffices h : ∀ (d : List (κ × α)) (st : LuaStack),
      (d.foldl (fun st p => rawSet st (-1) (kv p.1) (ev p.2)) st).length
        = st.length by
    simp [mapPush, h, newTable]
  intro d
  induction d with
  | nil => intro st; rfl
  | cons p rest ih =>
    intro st
    simp only [List.foldl_cons]
    rw [ih, rawSet_length]

theorem vectorToLoop_restore (e : LuaStack → Int → Option α)
    (rest : List (LuaValue × LuaValue)) :
    ∀ (sb : LuaStack) (acc : List α),
      stackSetTop sb.length (vectorToLoop e rest sb acc).2.2 = sb := by
  induction rest with
  | nil => intro sb acc; exact stackSetTop_self sb
  | cons p rest ih =>
    intro sb acc
    obtain ⟨k, v⟩ := p
    simp only [vectorToLoop]
    split
    · exact stackSetTop_two v k sb
    · split
      · exact stackSetTop_two v k sb
      · split
        · exact stackSetTop_two v k sb
        · exact ih sb _

theorem vectorTo_stack (e : LuaStack → Int → Option α) (s : LuaStack)
    (i : Int) (out : List α) : (vectorTo e s i out).2.2 = s := by
  unfold vectorTo
  cases hv : stackIndex s i with
  | none => rfl
  | some v => cases v <;> simp [vectorToLoop_restore]

theorem mapToLoop_restore [LinearOrder κ] (kt : LuaStack → Int → Option κ)
    (vt : LuaStack → Int → Option α) (rest : List (LuaValue × LuaValue)) :
    ∀ (sb : LuaStack) (acc : List (κ × α)),
      stackSetTop sb.length (mapToLoop kt vt rest sb acc).2.2 = sb := by
  induction rest with
  | nil => intro sb acc; exact stackSetTop_self sb
  | cons p rest ih =>
    intro sb acc
    obtain ⟨k, v⟩ := p
    simp only [mapToLoop]
    split
    · exact stackSetTop_two v k sb
    · split
      · exact stackSetTop_two v k sb
      · exact ih sb _

theorem mapTo_stack [LinearOrder κ] (kt : LuaStack → Int → Option κ)
    (vt : LuaStack → Int → Option α) (s : LuaStack) (i : Int)
    (out : List (κ × α)) : (mapTo kt vt s i out).2.2 = s := by
  unfold mapTo
  cases hv : stackIndex s i with
  | none => rfl
  | some v => cases v <;> simp [mapToLoop_restore]

theorem applyOp_length (s : LuaStack) (op : LuaOp) :
    (applyOp s op).length = s.length + opDelta op := by
  cases op <;>
    simp [applyOp, opDelta, intPush, uint32Push, floatPush, doublePush,
      boolPush, stringPush, vectorPush_length, mapPush_length,
      vectorTo_stack, mapTo_stack]

theorem luaKeyEq_intVal_false (a b : Int) (h : a ≠ b) :
    luaKeyEq (intVal a) (intVal b) = false := by
  simp only [luaKeyEq, intVal, numToRat, decide_eq_false_iff_not]
  exact_mod_cast h

theorem tableSetGo_fresh (k v : LuaValue) (e : List (LuaValue × LuaValue))
    (h : ∀ p ∈ e, luaKeyEq k p.1 = false) :
    tableSetGo k v e = e ++ [(k, v)] := by
  induction e with
  | nil => rfl
  | cons q rest ih =>
    obtain ⟨k', v'⟩ := q
    have hq : luaKeyEq k k' = false := h (k', v') (by simp)
    simp only [tableSetGo, hq, Bool.false_eq_true, if_false, List.cons_append,
      List.cons.injEq, true_and]
    exact ih (fun p hp => h p (by simp [hp]))

theorem rawSet_top_table (E : List (LuaValue × LuaValue)) (sb : LuaStack)
    (k v : LuaValue) :
    rawSet (.table E :: sb) (-1) k v = .table (tableSet E k v) :: sb := by
  have h1 : resolvePos (.table E :: sb) (-1) = some 0 := by
    simp [resolvePos]
  simp [rawSet, h1]

theorem mapPush_fold (dict : List (Int × Int))
    (hnd : List.Pairwise (fun p q : Int × Int => p.1 ≠ q.1) dict) :
    ∀ E0 : List (LuaValue × LuaValue),
      (∀ p ∈ dict, ∀ q ∈ E0, luaKeyEq (intVal p.1) q.1 = false) →
      dict.foldl (fun st p => rawSet st (-1) (intVal p.1) (intVal p.2))
          [.table E0]
        = [.table (E0 ++ dict.map fun p => (intVal p.1, intVal p.2))] := by
  induction dict with
  | nil => intro E0 h; simp
  | cons p rest ih =>
    intro E0 h
    have hstep : rawSet [LuaValue.table E0] (-1) (intVal p.1) (intVal p.2)
        = [.table (E0 ++ [(intVal p.1, intVal p.2)])] := by
      rw [rawSet_top_table]
      have hkn : keyNorm (intVal p.1) = intVal p.1 := rfl
      rw [tableSet, hkn,
        tableSetGo_fresh _ _ _ (fun q hq => h p (by simp) q hq)]
    simp only [List.foldl_cons, hstep]
    rw [ih (List.pairwise_cons.mp hnd).2 (E0 ++ [(intVal p.1, intVal p.2)])
      ?fresh]
    · simp
    case fresh =>
      intro p' hp' q hq
      rcases List.mem_append.mp hq with hq | hq
      · exact h p' (by simp [hp']) q hq
      · have hq' : q = (intVal p.1, intVal p.2) := by simpa using hq
        subst hq'
        exact luaKeyEq_intVal_false _ _
          (((List.pairwise_cons.mp hnd).1 p' hp').symm)

theorem intToOpt_neg_two (a b : LuaValue) (sb : LuaStack) :
    intToOpt (a :: b :: sb) (-2) = intReadValue b := by
  simp [intToOpt, luaToIntegerx, stackIndex_under_top, intReadValue]

theorem intToOpt_neg_one (a : LuaValue) (sb : LuaStack) :
    intToOpt (a :: sb) (-1) = intReadValue a := by
  simp [intToOpt, luaToIntegerx, stackIndex_top, intReadValue]

theorem mapToLoop_ok (l : List (LuaValue × LuaValue))
    (hl : ∀ p ∈ l, (intReadValue p.1).isSome ∧ (intReadValue p.2).isSome) :
    ∀ (sb : LuaStack) (acc : List (Int × Int)),
      mapToLoop intToOpt intToOpt l sb acc
        = (true,
            l.foldl (fun m p =>
              mapInsert m ((intReadValue p.1).getD 0)
                ((intReadValue p.2).getD 0)) acc,
            sb) := by
  induction l with
  | nil => intro sb acc; rfl
  | cons p rest ih =>
    intro sb acc
    obtain ⟨k, v⟩ := p
    obtain ⟨hk, hv⟩ := hl (k, v) (by simp)
    obtain ⟨a, ha⟩ := Option.isSome_iff_exists.mp hk
    obtain ⟨b, hb⟩ := Option.isSome_iff_exists.mp hv
    simp only [mapToLoop, intToOpt_neg_two, intToOpt_neg_one, ha, hb]
    rw [ih (fun p hp => hl p (by simp [hp]))]
    simp [ha, hb]

theorem mapToLoop_fails (l : List (LuaValue × LuaValue)) :
    ∀ (sb : LuaStack) (acc : List (Int × Int)),
      (∃ p ∈ l, intOfValue p.1 = none ∨ intOfValue p.2 = none) →
      (mapToLoop intToOpt intToOpt l sb acc).1 = false := by
  induction l with
  | nil =>
    intro sb acc h
    obtain ⟨p, hp, _⟩ := h
    exact absurd hp (List.not_mem_nil p)
  | cons q rest ih =>
    intro sb acc h
    obtain ⟨k, v⟩ := q
    by_cases hk : intOfValue k = none
    · simp [mapToLoop, intToOpt_neg_two, intReadValue, hk]
    · obtain ⟨a, ha⟩ := Option.ne_none_iff_exists'.mp hk
      by_cases hv : intOfValue v = none
      · simp [mapToLoop, intToOpt_neg_two, intToOpt_neg_one, intReadValue,
          ha, hv]
      · obtain ⟨b, hb⟩ := Option.ne_none_iff_exists'.mp hv
        simp only [mapToLoop, intToOpt_neg_two, intToOpt_neg_one,
          intReadValue, ha, hb, Option.map_some]
        apply ih
        obtain ⟨p, hp, hfail⟩ := h
        rcases List.mem_cons.mp hp with hh | hp'
        · rw [hh] at hfail
          rcases hfail with hf | hf
          · exact absurd hf hk
          · exact absurd hf hv
        · exact ⟨p, hp', hfail⟩

theorem mapInsert_big (acc : List (Int × Int)) (k v : Int)
    (h : ∀ q ∈ acc, q.1 < k) : mapInsert acc k v = acc ++ [(k, v)] := by
  induction acc with
  | nil => rfl
  | cons q rest ih =>
    obtain ⟨a, b⟩ := q
    have ha : a < k := h (a, b) (by simp)
    simp only [mapInsert]
    rw [if_neg (by omega), if_neg (by omega)]
    simp only [List.cons_append, List.cons.injEq, true_and]
    exact ih (fun q hq => h q (by simp [hq]))

theorem foldl_mapInsert_sorted (dict : List (Int × Int))
    (hs : List.Pairwise (fun p q : Int × Int => p.1 < q.1) dict) :
    ∀ acc : List (Int × Int), (∀ p ∈ dict, ∀ q ∈ acc, q.1 < p.1) →
      dict.foldl (fun m p => mapInsert m p.1 p.2) acc = acc ++ dict := by
  induction dict with
  | nil => intro acc h; simp
  | cons p rest ih =>
    intro acc h
    simp only [List.foldl_cons]
    rw [mapInsert_big acc p.1 p.2 (h p (by simp))]
    rw [ih (List.pairwise_cons.mp hs).2 (acc ++ [(p.1, p.2)]) ?later]
    · simp
    case later =>
      intro p' hp' q hq
      rcases List.mem_append.mp hq with hq | hq
      · exact h p' (by simp [hp']) q hq
      · have hq' : q = (p.1, p.2) := by simpa using hq
        rw [hq']
        exact (List.pairwise_cons.mp hs).1 p' hp'

theorem mapInsert_comm (L : List (Int × Int)) (k k' v v' : Int)
    (h : k ≠ k') :
    mapInsert (mapInsert L k v) k' v' = mapInsert (mapInsert L k' v') k v := by
  induction L with
  | nil =>
    simp only [mapInsert]
    split_ifs <;> first | rfl | omega
  | cons q rest ih =>
    obtain ⟨a, b⟩ := q
    simp only [mapInsert]
    split_ifs <;> simp only [mapInsert] <;> split_ifs <;>
      first
        | rfl
        | omega
        | rw [ih]

theorem intReadValue_intVal (a : Int) (h : toInt32 a = a) :
    intReadValue (intVal a) = some a := by
  simp [intReadValue, intOfValue, intVal, h]

theorem foldl_map_pairVal (d : List (Int × Int)) :
    ∀ acc : List (Int × Int),
      (∀ p ∈ d, toInt32 p.1 = p.1 ∧ toInt32 p.2 = p.2) →
      (d.map fun p => (intVal p.1, intVal p.2)).foldl
        (fun m p => mapInsert m ((intReadValue p.1).getD 0)
          ((intReadValue p.2).getD 0)) acc
      = d.foldl (fun m p => mapInsert m p.1 p.2) acc := by
  induction d with
  | nil => intro acc hr; rfl
  | cons p rest ih =>
    intro acc hr
    simp only [List.map_cons, List.foldl_cons,
      intReadValue_intVal p.1 (hr p (by simp)).1,
      intReadValue_intVal p.2 (hr p (by simp)).2, Option.getD_some]
    exact ih (mapInsert acc p.1 p.2) (fun q hq => hr q (by simp [hq]))

/-! ### Claim theorems -/

/-- C1: the scalar round-trip law holds for int, uint32_t, float, bool
and string, but fails for double: `Type<double>::To` stores the runtime's
number through `int ret`, so pushing the non-integral double `1.5` and
reading it back succeeds yet yields `1`, not `1.5` — the code contradicts
the spec's round-trip law (the float specialization's `float ret` shows
the intended pattern). -/
theorem claim1_scalar_roundtrip_double_truncated :
    intTo (intPush [] 5) (-1) 0 = (true, 5) ∧
    uint32To (uint32Push [] 3) (-1) 0 = (true, 3) ∧
    floatTo (floatPush [] threeHalves) (-1) 0 = (true, threeHalves) ∧
    boolTo (boolPush [] false) (-1) true = (true, false) ∧
    stringTo (stringPush [] "ab") (-1) "" = (true, "ab") ∧
    doubleTo (doublePush [] threeHalves) (-1) 0 = (true, 1) ∧
    (1 : ℚ) ≠ threeHalves := by
  refine ⟨by decide, by decide, by decide, rfl, rfl, by decide, by decide⟩

/-- C2: pushing `std::vector<int>{42}` writes the table `{1 ↦ 42}`, but
reading it back fails: the array check compares the first key `1`
against `static_cast<int>(out->size() - 1) = -1`, so `To` returns false
with nothing appended — the round-trip claimed for n = 1 (and 10) does
not hold on the code. -/
theorem claim2_vector_roundtrip_fails_n1 :
    vectorPush intVal [] [42] =
      [.table [(.num (.int 1), .num (.int 42))]] ∧
    (vectorTo intToOpt (vectorPush intVal [] [42]) 1 ([] : List Int)).1
      = false ∧
    (vectorTo intToOpt (vectorPush intVal [] [42]) 1 ([] : List Int)).2.1
      = [] := by
  exact ⟨rfl, rfl, rfl⟩

/-- C3 (counterexample): `Type<std::map<K,V>>::To` can return false while
having already written into `*out`: on the table `{1 ↦ 5, true ↦ 6}`
(iterated in that order) the first pair is inserted before the second
pair's key fails its integer conversion, so the call fails with
`*out = {1 ↦ 5}` — the out-parameter is not left untouched. -/
theorem claim3_map_to_fails_with_partial_out :
    (mapTo intToOpt intToOpt
      [.table [(.num (.int 1), .num (.int 5)), (.boolean true, .num (.int 6))]]
      1 ([] : List (Int × Int))).1 = false ∧
    (mapTo intToOpt intToOpt
      [.table [(.num (.int 1), .num (.int 5)), (.boolean true, .num (.int 6))]]
      1 ([] : List (Int × Int))).2.1 = [(1, 5)] ∧
    ([(1, 5)] : List (Int × Int)) ≠ [] := by
  exact ⟨rfl, rfl, by decide⟩

/-- C3 (amended): every scalar and string `Type<T>::To` writes `*out`
only on success and leaves it exactly as it was whenever it returns
false; the container specializations return false on failure but may
leave partially-accumulated entries in `*out`. -/
theorem claim3_scalar_to_failure_leaves_out (s : LuaStack) (i : Int)
    (a b : Int) (c d : ℚ) (e : Bool) (f : String) :
    ((intTo s i a).1 = false → (intTo s i a).2 = a) ∧
    ((uint32To s i b).1 = false → (uint32To s i b).2 = b) ∧
    ((floatTo s i c).1 = false → (floatTo s i c).2 = c) ∧
    ((doubleTo s i d).1 = false → (doubleTo s i d).2 = d) ∧
    ((boolTo s i e).1 = false → (boolTo s i e).2 = e) ∧
    ((stringTo s i f).1 = false → (stringTo s i f).2 = f) ∧
    ((stringPieceTo s i f).1 = false → (stringPieceTo s i f).2 = f) ∧
    ((charPtrTo s i f).1 = false → (charPtrTo s i f).2 = f) := by
  refine ⟨?_, ?_, ?_, ?_, ?_, ?_, ?_, ?_⟩
  · cases h : luaToIntegerx s i <;> simp [intTo, h]
  · cases h : luaToIntegerx s i <;> simp [uint32To, h]
  · cases h : luaToNumberx s i <;> simp [floatTo, h]
  · cases h : luaToNumberx s i <;> simp [doubleTo, h]
  · cases h : stackIndex s i with
    | none => simp [boolTo, h]
    | some v => cases v <;> simp [boolTo, h]
  · cases h : luaToStr s i <;> simp [stringTo, h]
  · cases h : luaToStr s i <;> simp [stringPieceTo, h]
  · cases h : luaToStr s i <;> simp [charPtrTo, h]

/-- C3 (witness): a concrete failing scalar conversion leaves the
out-value unchanged. -/
theorem claim3_scalar_to_failure_leaves_out_witness :
    (intTo [LuaValue.boolean true] 1 7).1 = false ∧
    (intTo [LuaValue.boolean true] 1 7).2 = 7 :=
  ⟨rfl,
    (claim3_scalar_to_failure_leaves_out [LuaValue.boolean true] 1 7 0 0 0
      true "").1 rfl⟩

/-- C4: `Type<bool>::To` fails whenever the slot's dynamic type is not
boolean (no truthy/falsy coercion) and leaves the out-value unchanged,
while a slot holding the boolean `false` converts successfully to
`false`. -/
theorem claim4_bool_strictness (s : LuaStack) (i : Int) (out : Bool) :
    (GetType s i ≠ LuaType.Boolean → boolTo s i out = (false, out)) ∧
    (stackIndex s i = some (.boolean false) → boolTo s i out = (true, false)) := by
  constructor
  · intro h
    cases hv : stackIndex s i with
    | none => simp [boolTo, hv]
    | some v =>
      cases v with
      | boolean b => exact absurd (by simp [GetType, luaTypeOf, hv]) h
      | nil => simp [boolTo, hv]
      | num n => simp [boolTo, hv]
      | str t => simp [boolTo, hv]
      | table e => simp [boolTo, hv]
      | lightuserdata p => simp [boolTo, hv]
  · intro h
    simp [boolTo, h]

/-- C4 (witness): the number `0` and the empty string fail the boolean
conversion while the boolean `false` converts to `false`. -/
theorem claim4_bool_strictness_witness :
    boolTo [LuaValue.num (.int 0)] 1 true = (false, true) ∧
    boolTo [LuaValue.str ""] 1 true = (false, true) ∧
    boolTo [LuaValue.boolean false] 1 true = (true, false) :=
  ⟨(claim4_bool_strictness [LuaValue.num (.int 0)] 1 true).1 (by decide),
   (claim4_bool_strictness [LuaValue.str ""] 1 true).1 (by decide),
   (claim4_bool_strictness [LuaValue.boolean false] 1 true).2 rfl⟩

/-- C5: the two rejection instances of the claim do fail — a gap table
`{1 ↦ 10, 3 ↦ 11}` and a table with a non-numeric key are rejected —
but the universal statement is false on the code: because the array
check compares keys against `static_cast<int>(out->size() - 1)`, the
non-array table `{-1 ↦ 7}` is accepted, `To` returning true with
out `[7]`. -/
theorem claim5_nonarray_table_accepted :
    (vectorTo intToOpt
      [.table [(.num (.int 1), .num (.int 10)), (.num (.int 3), .num (.int 11))]]
      1 ([] : List Int)).1 = false ∧
    (vectorTo intToOpt
      [.table [(.str "k", .num (.int 10)), (.num (.int 1), .num (.int 11))]]
      1 ([] : List Int)).1 = false ∧
    (vectorTo intToOpt [.table [(.num (.int (-1)), .num (.int 7))]]
      1 ([] : List Int)).1 = true ∧
    (vectorTo intToOpt [.table [(.num (.int (-1)), .num (.int 7))]]
      1 ([] : List Int)).2.1 = [7] := by
  exact ⟨rfl, rfl, rfl, rfl⟩

/-- C6: pushing a `std::map<int, int>` with distinct (hence strictly
increasing, in iteration order) keys writes the table with exactly those
pairs, and reading any `lua_next`-enumeration order (any permutation) of
that table back into an empty map succeeds and returns exactly the same
key-to-value pairs, the stack being restored; and map `To` returns false
whenever some encountered key or value fails its own element
conversion. -/
theorem claim6_map_roundtrip (dict : List (Int × Int))
    (l : List (LuaValue × LuaValue))
    (hs : List.Pairwise (fun p q : Int × Int => p.1 < q.1) dict)
    (hrange : ∀ p ∈ dict, toInt32 p.1 = p.1 ∧ toInt32 p.2 = p.2)
    (hperm : l.Perm (dict.map fun p => (intVal p.1, intVal p.2))) :
    mapPush intVal intVal [] dict
      = [.table (dict.map fun p => (intVal p.1, intVal p.2))] ∧
    mapTo intToOpt intToOpt [.table l] 1 ([] : List (Int × Int))
      = (true, dict, [.table l]) ∧
    (∀ (l' : List (LuaValue × LuaValue)) (sb : LuaStack)
        (out : List (Int × Int)),
      (∃ p ∈ l', intOfValue p.1 = none ∨ intOfValue p.2 = none) →
      (mapTo intToOpt intToOpt (.table l' :: sb) (-1) out).1 = false) := by
  have hne : List.Pairwise (fun p q : Int × Int => p.1 ≠ q.1) dict :=
    hs.imp (fun h => ne_of_lt h)
  have hmem : ∀ p ∈ l, ∃ q ∈ dict, p = (intVal q.1, intVal q.2) := by
    intro p hp
    have hp' := hperm.subset hp
    obtain ⟨q, hq, hqe⟩ := List.mem_map.mp hp'
    exact ⟨q, hq, hqe.symm⟩
  refine ⟨?push, ?roundtrip, ?fails⟩
  case push =>
    show dict.foldl _ (newTable []) = _
    rw [show newTable [] = [LuaValue.table []] from rfl]
    rw [mapPush_fold dict hne [] (fun p _ q hq => absurd hq
      (List.not_mem_nil q))]
    simp
  case roundtrip =>
    have hdec : ∀ p ∈ l,
        (intReadValue p.1).isSome ∧ (intReadValue p.2).isSome := by
      intro p hp
      obtain ⟨q, hq, rfl⟩ := hmem p hp
      rw [intReadValue_intVal q.1 (hrange q hq).1,
        intReadValue_intVal q.2 (hrange q hq).2]
      exact ⟨rfl, rfl⟩
    have hidx : stackIndex [LuaValue.table l] 1 = some (.table l) := rfl
    have hfold : l.foldl
        (fun m p => mapInsert m ((intReadValue p.1).getD 0)
          ((intReadValue p.2).getD 0)) []
        = dict := by
      have hcomm : ∀ x ∈ l, ∀ y ∈ l, ∀ z : List (Int × Int),
          mapInsert (mapInsert z ((intReadValue x.1).getD 0)
              ((intReadValue x.2).getD 0))
            ((intReadValue y.1).getD 0) ((intReadValue y.2).getD 0)
          = mapInsert (mapInsert z ((intReadValue y.1).getD 0)
              ((intReadValue y.2).getD 0))
            ((intReadValue x.1).getD 0) ((intReadValue x.2).getD 0) := by
        intro x hx y hy z
        obtain ⟨p, hp, rfl⟩ := hmem x hx
        obtain ⟨q, hq, rfl⟩ := hmem y hy
        by_cases hpq : p = q
        · rw [hpq]
        · have hne' : p.1 ≠ q.1 :=
            hne.forall (fun _ _ h => Ne.symm h) hp hq hpq
          rw [intReadValue_intVal p.1 (hrange p hp).1,
            intReadValue_intVal p.2 (hrange p hp).2,
            intReadValue_intVal q.1 (hrange q hq).1,
            intReadValue_intVal q.2 (hrange q hq).2]
          simp only [Option.getD_some]
          exact mapInsert_comm z p.1 q.1 p.2 q.2 hne'
      rw [List.Perm.foldl_eq' hperm hcomm []]
      rw [foldl_map_pairVal dict [] hrange]
      exact foldl_mapInsert_sorted dict hs []
        (fun p _ q hq => absurd hq (List.not_mem_nil q))
    simp only [mapTo, hidx]
    rw [mapToLoop_ok l hdec [LuaValue.table l] []]
    simp only [hfold]
    rfl
  case fails =>
    intro l' sb out hex
    have hidx := stackIndex_top (LuaValue.table l') sb
    simp only [mapTo, hidx]
    exact mapToLoop_fails l' (LuaValue.table l' :: sb) out hex

/-- C6 (witness): the map `{1 ↦ 10, 2 ↦ 20}` pushed and read back in the
reversed iteration order returns the same map, while a table containing
a boolean key fails the conversion. -/
theorem claim6_map_roundtrip_witness :
    mapTo intToOpt intToOpt
      [.table [(intVal 2, intVal 20), (intVal 1, intVal 10)]] 1
      ([] : List (Int × Int))
      = (true, [(1, 10), (2, 20)],
        [.table [(intVal 2, intVal 20), (intVal 1, intVal 10)]]) ∧
    (mapTo intToOpt intToOpt
      [.table [(.boolean true, intVal 1)]] (-1)
      ([] : List (Int × Int))).1 = false := by
  have h := claim6_map_roundtrip [(1, 10), (2, 20)]
    [(intVal 2, intVal 20), (intVal 1, intVal 10)]
    (by decide) (by decide)
    (List.Perm.swap (intVal 1, intVal 10) (intVal 2, intVal 20) [])
  exact ⟨h.2.1, h.2.2 [(.boolean true, intVal 1)] [] []
    ⟨(.boolean true, intVal 1), by simp, Or.inl rfl⟩⟩

/-- C7: `Values<T>::count` is 0 for void, N for an N-element tuple, and
1 for every other type. -/
theorem claim7_values_count :
    valuesCount .void = 0 ∧
    (∀ args : List CppType, valuesCount (.tuple args) = args.length) ∧
    (∀ t : CppType, t ≠ .void → (∀ args, t ≠ .tuple args) →
      valuesCount t = 1) := by
  refine ⟨rfl, fun args => rfl, fun t h1 h2 => ?_⟩
  cases t with
  | void => exact absurd rfl h1
  | tuple args => exact absurd rfl (h2 args)
  | _ => rfl

/-- C7 (witness): the non-void, non-tuple type `int` has count 1. -/
theorem claim7_values_count_witness : valuesCount CppType.cint = 1 :=
  claim7_values_count.2.2 CppType.cint (fun h => CppType.noConfusion h)
    (fun _ h => CppType.noConfusion h)

/-- C8: the three string conversions inherit the runtime's
string-coercion rule: they succeed on every string-coercible slot, a
number slot converting to its string form, and they fail (leaving the
out-value unchanged) exactly when the slot is not string-coercible. -/
theorem claim8_string_inherits_coercion (s : LuaStack) (i : Int)
    (out : String) :
    (∀ v, stackIndex s i = some v → stringCoercible v = true →
      (stringTo s i out).1 = true ∧ (stringPieceTo s i out).1 = true ∧
        (charPtrTo s i out).1 = true) ∧
    (∀ n, stackIndex s i = some (.num n) →
      stringTo s i out = (true, luaNumToString n) ∧
      stringPieceTo s i out = (true, luaNumToString n) ∧
      charPtrTo s i out = (true, luaNumToString n)) ∧
    ((∀ v, stackIndex s i = some v → stringCoercible v = false) →
      stringTo s i out = (false, out) ∧
      stringPieceTo s i out = (false, out) ∧
      charPtrTo s i out = (false, out)) := by
  refine ⟨fun v hv hc => ?_, fun n hn => ?_, fun hall => ?_⟩
  · cases v <;>
      simp_all [stringTo, stringPieceTo, charPtrTo, luaToStr, strOfValue,
        stringCoercible]
  · simp [stringTo, stringPieceTo, charPtrTo, luaToStr, strOfValue, hn]
  · cases h : stackIndex s i with
    | none => simp [stringTo, stringPieceTo, charPtrTo, luaToStr, h]
    | some v =>
      have hv := hall v h
      cases v <;>
        simp_all [stringTo, stringPieceTo, charPtrTo, luaToStr, strOfValue,
          stringCoercible, h]

/-- C8 (witness): a number slot converts to its string form and a
boolean slot fails string conversion, leaving the out-value unchanged. -/
theorem claim8_string_inherits_coercion_witness :
    stringTo [LuaValue.num (.int 7)] 1 "z" = (true, "7") ∧
    stringTo [LuaValue.boolean true] 1 "z" = (false, "z") :=
  ⟨((claim8_string_inherits_coercion [LuaValue.num (.int 7)] 1 "z").2.1
      (.int 7) rfl).1,
   ((claim8_string_inherits_coercion [LuaValue.boolean true] 1 "z").2.2
      (fun v hv => by cases hv; rfl)).1⟩

/-- C9: for any sequence of `Push`/`To` calls of this layer, the net
stack height change is the sum of the documented contracts: +1 per
scalar or container `Push` and 0 per `To` call, including failing `To`
calls, whose scratch slots the `StackAutoReset` removes before
returning. -/
theorem claim9_stack_neutrality (ops : List LuaOp) (s : LuaStack) :
    (runOps s ops).length = s.length + (ops.map opDelta).sum := by
  induction ops generalizing s with
  | nil => simp [runOps]
  | cons op rest ih =>
    show (runOps (applyOp s op) rest).length = _
    rw [ih]
    simp [applyOp_length]
    omega

/-- C10: `Type<uint32_t>::To` stores the runtime integer through a
signed `int` intermediate, so a successful read of an integer slot `v`
yields `v` reduced modulo `2^32`, and Push-then-To round-trips every
`uint32_t` value, including values above `INT_MAX`. -/
theorem claim10_uint32_wraparound :
    (∀ (s : LuaStack) (i : Int) (out v : Int), luaToIntegerx s i = some v →
      uint32To s i out = (true, v % 2 ^ 32)) ∧
    (∀ (s : LuaStack) (out v : Int), 0 ≤ v → v < 2 ^ 32 →
      uint32To (uint32Push s v) (-1) out = (true, v)) := by
  have key : ∀ v : Int, toUInt32 (toInt32 v) = v % 2 ^ 32 := by
    intro v
    simp only [toUInt32, toInt32]
    norm_num
    omega
  constructor
  · intro s i out v h
    simp [uint32To, h, key]
  · intro s out v h0 h1
    have hx : luaToIntegerx (uint32Push s v) (-1) = some v := by
      simp [luaToIntegerx, uint32Push, stackIndex_top, intOfValue]
    simp only [uint32To, hx, key]
    norm_num at h1 ⊢
    omega

/-- C10 (witness): the value `4294967295 > INT_MAX` round-trips. -/
theorem claim10_uint32_wraparound_witness :
    uint32To (uint32Push [] 4294967295) (-1) 0 = (true, 4294967295) :=
  claim10_uint32_wraparound.2 [] 0 4294967295 (by decide) (by decide)

end LuaTypes
